import Mathlib

/-!
Verification of the measurement core of voip_probe.py against its
natural-language specification.

The Python source is shallowly embedded: floats become exact rationals,
the byte-level packet format becomes big-endian parsing over lists of
byte values, the mutable client-loop state becomes an explicit record
with one step function per source block, and fallible or withheld values
become Option.  Every definition is translated from the source file
src/voip_probe.py (line references in the doc comments).
-/

namespace VoipProbe

/-- Wire-format size in bytes of struct.Struct("!I Q I"): u32 + u64 + u32
(source line 26). -/
def PKT_SIZE : ℕ := 16

/-- Protocol magic constant (source line 27). -/
def MAGIC : ℕ := 0xABCD1357

/-- Codec table mapping codec name to the E-model pair (Ie, Bpl)
(source lines 29-33). -/
def CODEC_PARAMS : List (String × (ℚ × ℚ)) :=
  [("g711", (0, 25)), ("g729", (11, 19)), ("opus", (5, 14))]

/-- Model of Python str.lower(): lower-case each character.  The codec
names involved are ASCII, for which this is exactly Python's lower(). -/
def pyLower (s : String) : String := String.mk (s.data.map Char.toLower)

/-- Dictionary get with default, as in CODEC_PARAMS.get(name, CODEC_PARAMS["g711"])
(source line 45); the default is the g711 entry (0, 25). -/
def codecGet (name : String) : ℚ × ℚ := (CODEC_PARAMS.lookup name).getD (0, 25)

/-- Heaviside step used by the delay impairment (source lines 41-42). -/
def hstep (x : ℚ) : ℚ := if 0 < x then 1 else 0

/-- Delay impairment Id (source line 49). -/
def idOf (d : ℚ) : ℚ := 0.024 * d + 0.11 * (d - 177.3) * hstep (d - 177.3)

/-- Effective equipment impairment Ie_eff (source lines 51-54). -/
def ieEffOf (Ie Bpl burstR Ppl : ℚ) : ℚ :=
  if 0 < Ppl then Ie + (95 - Ie) * Ppl / (Ppl / Bpl + burstR) else Ie

/-- The cubic R-to-MOS polynomial of the E-model (source line 63). -/
def cubicMos (R : ℚ) : ℚ :=
  1 + 0.035 * R + (R * (R - 60) * (100 - R)) * (7 / 1000000)

/-- Piecewise MOS from the R-factor (source lines 58-64): floor 1.0 for
R <= 0, ceiling 4.5 for R >= 100, otherwise the cubic clamped to [1, 4.5]. -/
def mosOfR (R : ℚ) : ℚ :=
  if R ≤ 0 then 1 else if 100 ≤ R then 4.5 else max 1 (min 4.5 (cubicMos R))

/-- The E-model MOS estimator emodel_mos (source lines 44-66).  Returns
the tuple (mos, R, Id, Ie_eff). -/
def emodel_mos (delay_ms loss_percent : ℚ) (codec : String) (burstR : ℚ) :
    ℚ × ℚ × ℚ × ℚ :=
  let p := codecGet (pyLower codec)
  let d := max 0 delay_ms
  let Ppl := max 0 loss_percent
  let Id := idOf d
  let Ie_eff := ieEffOf p.1 p.2 burstR Ppl
  let R := 94.2 - Id - Ie_eff
  (mosOfR R, R, Id, Ie_eff)

/-- RFC 3550 jitter EWMA update (source lines 68-69). -/
def rfc3550_jitter_update (J_prev diff_ms : ℚ) : ℚ :=
  J_prev + (|diff_ms| - J_prev) / 16

/-- The MOS value produced from any R-factor lies in [1, 4.5]. -/
lemma mosOfR_mem (R : ℚ) : 1 ≤ mosOfR R ∧ mosOfR R ≤ 4.5 := by
  unfold mosOfR
  split_ifs with h1 h2
  · norm_num
  · norm_num
  · refine ⟨le_max_left _ _, max_le (by norm_num) ?_⟩
    exact le_trans (min_le_left _ _) (le_refl _)

/-- Claim C1: for every non-negative delay d (ms), non-negative loss
percent p, any codec name, and burst factor 1.0, the MOS value returned
by emodel_mos lies within the closed interval [1.0, 4.5]. -/
theorem C1_mos_range (d p : ℚ) (codec : String) (hd : 0 ≤ d) (hp : 0 ≤ p) :
    1 ≤ (emodel_mos d p codec 1).1 ∧ (emodel_mos d p codec 1).1 ≤ 4.5 := by
  unfold emodel_mos
  exact mosOfR_mem _

/-- Witness for C1 at the concrete input d = 0, p = 0, codec g711. -/
theorem C1_mos_range_witness :
    (0:ℚ) ≤ 0 ∧
      (1 ≤ (emodel_mos 0 0 "g711" 1).1 ∧ (emodel_mos 0 0 "g711" 1).1 ≤ 4.5) :=
  ⟨le_refl 0, C1_mos_range 0 0 "g711" (le_refl 0) (le_refl 0)⟩

/-- Evaluation of the estimator at zero delay and zero loss with codec
g711: Id = 0, Ie_eff = 0, R = 94.2 and the cubic gives MOS
4.427798584. -/
lemma emodel_g711_zero :
    emodel_mos 0 0 "g711" 1 = (4427798584 / 1000000000, 94.2, 0, 0) := by
  have hg711 : codecGet (pyLower "g711") = (0, 25) := by decide
  unfold emodel_mos
  rw [hg711]
  norm_num [idOf, hstep, ieEffOf, mosOfR, cubicMos]

/-- Claim C3: emodel_mos reproduces the worked examples of the spec.
At d = 0, p = 0, codec g711 (Ie = 0, Bpl = 25): Id = 0, Ie_eff = 0,
R = 94.2, and MOS = 4.427798584 (approximately 4.43), computed through
the cubic branch since 0 < 94.2 < 100.  At d = 50, p = 5, codec g729
(Ie = 11, Bpl = 19), burst factor 1.0: Ie_eff = 343.5 (approximately
343.6), R = -250.5 < 0, and MOS = 1.0 exactly. -/
theorem C3_worked_examples :
    (emodel_mos 0 0 "g711" 1 = (4427798584 / 1000000000, 94.2, 0, 0)
      ∧ (0:ℚ) < 94.2 ∧ (94.2:ℚ) < 100
      ∧ |(4427798584 / 1000000000 : ℚ) - 4.43| < 1 / 100)
    ∧ (emodel_mos 50 5 "g729" 1 = (1, -250.5, 1.2, 343.5)
      ∧ |(343.5 : ℚ) - 343.6| ≤ 1 / 10
      ∧ (-250.5 : ℚ) < 0) := by
  have hg729 : codecGet (pyLower "g729") = (11, 19) := by decide
  refine ⟨⟨emodel_g711_zero, by norm_num, by norm_num,
            by rw [abs_of_nonpos] <;> norm_num⟩,
          ⟨?_, by rw [abs_of_nonpos] <;> norm_num, by norm_num⟩⟩
  · unfold emodel_mos
    rw [hg729]
    norm_num [idOf, hstep, ieEffOf, mosOfR, cubicMos]

/-- If the cubic exceeds 1 at a positive argument a, then a lies in the
region where the discriminant term 160a - a^2 - 1000 is positive. -/
lemma cubic_gt_one_region {a : ℚ} (ha : 0 < a) (h1 : 1 < cubicMos a) :
    0 < 160 * a - a ^ 2 - 1000 := by
  unfold cubicMos at h1
  by_contra hle
  push_neg at hle
  nlinarith [mul_nonneg ha.le (by linarith : (0:ℚ) ≤ a ^ 2 - 160 * a + 1000)]

/-- Key quadratic bound for monotonicity of the clamped cubic: inside the
region where the cubic exceeds 1, the slope certificate is non-negative. -/
lemma cubic_slope_cert {a b : ℚ} (ha : 0 < a) (hab : a ≤ b) (hb : b < 100)
    (hG : 0 < 160 * a - a ^ 2 - 1000) :
    0 ≤ -1000 + 160 * (a + b) - (a ^ 2 + a * b + b ^ 2) := by
  have hb0 : (0:ℚ) < b := lt_of_lt_of_le ha hab
  rcases le_or_lt a 60 with h60 | h60
  · nlinarith [mul_nonneg hb0.le (by linarith : (0:ℚ) ≤ 160 - a - b)]
  · nlinarith [mul_nonneg (by linarith : (0:ℚ) ≤ 100 - b) (by linarith : (0:ℚ) ≤ a - 60),
      mul_nonneg hb0.le (by linarith : (0:ℚ) ≤ 100 - b),
      mul_nonneg ha.le (by linarith : (0:ℚ) ≤ 100 - a)]

/-- On the open interval (0, 100), wherever the cubic exceeds 1 it is
non-decreasing to the right (up to 100). -/
lemma cubicMos_mono {a b : ℚ} (ha : 0 < a) (hab : a ≤ b) (hb : b < 100)
    (h1 : 1 < cubicMos a) : cubicMos a ≤ cubicMos b := by
  have hG := cubic_gt_one_region ha h1
  have hT := cubic_slope_cert ha hab hb hG
  unfold cubicMos
  nlinarith [mul_nonneg (sub_nonneg.mpr hab) hT]

/-- The piecewise R-to-MOS map is monotone non-decreasing. -/
lemma mosOfR_mono {R1 R2 : ℚ} (h : R1 ≤ R2) : mosOfR R1 ≤ mosOfR R2 := by
  rcases le_or_lt R1 0 with hA | hA
  · rw [mosOfR, if_pos hA]
    exact (mosOfR_mem R2).1
  rcases le_or_lt 100 R2 with hB | hB
  · have e2 : mosOfR R2 = 4.5 := by
      rw [mosOfR, if_neg (by linarith : ¬ R2 ≤ 0), if_pos hB]
    rw [e2]
    exact (mosOfR_mem R1).2
  have hA2 : ¬ R1 ≤ 0 := not_le.mpr hA
  have hB1 : ¬ 100 ≤ R1 := by
    intro hc
    linarith
  have e1 : mosOfR R1 = max 1 (min 4.5 (cubicMos R1)) := by
    rw [mosOfR, if_neg hA2, if_neg hB1]
  have e2 : mosOfR R2 = max 1 (min 4.5 (cubicMos R2)) := by
    rw [mosOfR, if_neg (by linarith : ¬ R2 ≤ 0), if_neg (not_le.mpr hB)]
  rw [e1, e2]
  rcases le_or_lt (cubicMos R1) 1 with hc1 | hc1
  · exact max_le (le_max_left _ _)
      (le_trans (le_trans (min_le_right _ _) hc1) (le_max_left _ _))
  · have hcc := cubicMos_mono hA h hB hc1
    exact max_le_max (le_refl 1) (min_le_min (le_refl _) hcc)

/-- The delay impairment Id is monotone non-decreasing in the delay. -/
lemma idOf_mono {d1 d2 : ℚ} (h : d1 ≤ d2) : idOf d1 ≤ idOf d2 := by
  unfold idOf hstep
  split_ifs with h1 h2 h2
  · nlinarith
  · linarith
  · nlinarith
  · nlinarith

/-- Claim C2: for every fixed codec, with loss percent p = 0 and burst
factor 1.0, the MOS returned by emodel_mos is non-increasing in the
delay: for all 0 <= d1 <= d2, MOS(d2, 0, codec) <= MOS(d1, 0, codec). -/
theorem C2_mos_nonincreasing_in_delay (codec : String) (d1 d2 : ℚ)
    (h0 : 0 ≤ d1) (h12 : d1 ≤ d2) :
    (emodel_mos d2 0 codec 1).1 ≤ (emodel_mos d1 0 codec 1).1 := by
  unfold emodel_mos
  have hple : ieEffOf (codecGet (pyLower codec)).1 (codecGet (pyLower codec)).2 1
      (max 0 0) = (codecGet (pyLower codec)).1 := by
    unfold ieEffOf
    norm_num
  simp only [hple]
  apply mosOfR_mono
  have := idOf_mono (max_le_max (le_refl (0:ℚ)) h12)
  linarith

/-- Witness for C2 at codec g711, d1 = 0, d2 = 200 (crossing the 177.3 ms
knee of the delay impairment). -/
theorem C2_mos_nonincreasing_in_delay_witness :
    (0:ℚ) ≤ 0 ∧ (0:ℚ) ≤ 200 ∧
      (emodel_mos 200 0 "g711" 1).1 ≤ (emodel_mos 0 0 "g711" 1).1 :=
  ⟨le_refl 0, by norm_num,
    C2_mos_nonincreasing_in_delay "g711" 0 200 (le_refl 0) (by norm_num)⟩

/-- Window loss percent (source lines 162-164): scan the window, count
entries present in the received set, and report 100*(len-count)/len,
or 0.0 for an empty window. -/
def lossPctOf (win : List ℕ) (received : Finset ℕ) : ℚ :=
  let recv_win := (win.filter (fun w => w ∈ received)).length
  if win = [] then 0
  else 100 * ((win.length : ℚ) - (recv_win : ℚ)) / (win.length : ℚ)

/-- Claim C4: for every non-empty sliding window holding W sent sequence
numbers of which exactly k are members of the received set, the window
loss percent equals exactly 100*(W-k)/W. -/
theorem C4_window_loss (win : List ℕ) (received : Finset ℕ) (W k : ℕ)
    (hne : win ≠ []) (hW : win.length = W)
    (hk : (win.filter (fun w => w ∈ received)).length = k) :
    lossPctOf win received = 100 * ((W : ℚ) - (k : ℚ)) / (W : ℚ) := by
  unfold lossPctOf
  rw [if_neg hne, hW, hk]

/-- Witness for C4: window [1, 2, 3] with received set {1, 3}, so W = 3
and k = 2, giving loss 100*(3-2)/3. -/
theorem C4_window_loss_witness :
    ([1, 2, 3] : List ℕ) ≠ [] ∧
      ([1, 2, 3] : List ℕ).length = 3 ∧
      (([1, 2, 3] : List ℕ).filter (fun w => w ∈ ({1, 3} : Finset ℕ))).length = 2 ∧
      lossPctOf [1, 2, 3] {1, 3} = 100 * ((3 : ℚ) - (2 : ℚ)) / (3 : ℚ) :=
  ⟨by decide, by decide, by decide,
    C4_window_loss [1, 2, 3] {1, 3} 3 2 (by decide) (by decide) (by decide)⟩

/-- Counterexample to claim C6 as stated: starting from jitter state
J = 16, the first zero-delta update yields 15, but a second zero-delta
update changes the value again (to 225/16), so the state is not left
unchanged after the first such update. -/
theorem C6_counterexample :
    rfc3550_jitter_update (rfc3550_jitter_update 16 0) 0 ≠
      rfc3550_jitter_update 16 0 := by
  norm_num [rfc3550_jitter_update]

/-- Claim C6 (amended): a zero-delta jitter update scales the state by
15/16, so a repeated zero delta leaves the state unchanged after the
first update exactly when the state is 0 (in particular the initial
state J = 0 stays 0 forever under zero deltas). -/
theorem C6_zero_delta_amended (J : ℚ) :
    rfc3550_jitter_update J 0 = 15 / 16 * J
    ∧ (rfc3550_jitter_update (rfc3550_jitter_update J 0) 0 =
        rfc3550_jitter_update J 0 ↔ J = 0) := by
  have h : ∀ x : ℚ, rfc3550_jitter_update x 0 = 15 / 16 * x := by
    intro x
    unfold rfc3550_jitter_update
    rw [abs_zero]
    ring
  refine ⟨h J, ?_⟩
  rw [h, h]
  constructor
  · intro he
    linarith
  · intro he
    rw [he]
    ring

/-- The mutable state of the client measurement loop (source lines
90-99): pending send times, the set of already-received sequence
numbers, RTT and one-way sample lists, the sliding window of sent
sequence numbers, the previous transit time, the jitter EWMA, cumulative
counters and the next sequence number. -/
structure ClientState where
  sent_times : List (ℕ × ℕ)
  received : Finset ℕ
  rtt_samples : List ℚ
  oneway_samples : List ℚ
  window : List ℕ
  last_transit_ms : Option ℚ
  J_ms : ℚ
  total_sent : ℕ
  total_recv : ℕ
  seq : ℕ

deriving instance DecidableEq for ClientState

/-- The initial client state (source lines 90-99). -/
def initState : ClientState where
  sent_times := []
  received := ∅
  rtt_samples := []
  oneway_samples := []
  window := []
  last_transit_ms := none
  J_ms := 0
  total_sent := 0
  total_recv := 0
  seq := 0

/-- Big-endian value of a list of bytes. -/
def beVal (bs : List ℕ) : ℕ := bs.foldl (fun a b => 256 * a + b) 0

/-- PKT_STRUCT.unpack of the first 16 bytes (source lines 26 and 144):
big-endian u32 seq, u64 send timestamp, u32 magic. -/
def parsePkt (data : List ℕ) : ℕ × ℕ × ℕ :=
  (beVal (data.take 4), beVal ((data.drop 4).take 8), beVal ((data.drop 12).take 4))

/-- Python dict assignment sent_times[k] = v: the key k now maps to v,
all other keys keep their bindings. -/
def dictInsert (l : List (ℕ × ℕ)) (k v : ℕ) : List (ℕ × ℕ) :=
  (k, v) :: l.filter (fun p => p.1 ≠ k)

/-- deque(maxlen=cap).append: push on the right, evicting from the left
when the capacity is exceeded (source lines 94 and 133). -/
def pushWindow (cap : ℕ) (w : List ℕ) (x : ℕ) : List ℕ :=
  let w1 := w ++ [x]
  if cap < w1.length then w1.drop (w1.length - cap) else w1

/-- Window capacity max(pps*10, 100) (source line 94). -/
def windowCap (pps : ℕ) : ℕ := max (pps * 10) 100

/-- One send attempt (source lines 127-138).  send_ns is the wall-clock
timestamp and sendOk tells whether sock.sendto succeeded; on failure the
recording lines are skipped (the exception handler only logs), and in
either case the sequence counter advances by 1 modulo 2^32. -/
def sendStep (cap : ℕ) (st : ClientState) (send_ns : ℕ) (sendOk : Bool) :
    ClientState :=
  let st1 :=
    if sendOk then
      { st with
          sent_times := dictInsert st.sent_times st.seq send_ns
          window := pushWindow cap st.window st.seq
          total_sent := st.total_sent + 1 }
    else st
  { st1 with seq := (st.seq + 1) % 2 ^ 32 }

/-- The resolved-sample update (source lines 150-160): record RTT and
one-way delay, bump the received counter, and run the jitter filter. -/
def resolveSample (st : ClientState) (r_seq s_ns send_ns recv_ns : ℕ) :
    ClientState :=
  let rtt_ms : ℚ := ((recv_ns : ℚ) - (send_ns : ℚ)) / 1000000
  let oneway_ms := rtt_ms / 2
  let transit_ms : ℚ := ((recv_ns : ℚ) - (s_ns : ℚ)) / 1000000
  let J1 :=
    match st.last_transit_ms with
    | some last => rfc3550_jitter_update st.J_ms (transit_ms - last)
    | none => st.J_ms
  { st with
      received := insert r_seq st.received
      rtt_samples := st.rtt_samples ++ [rtt_ms]
      oneway_samples := st.oneway_samples ++ [oneway_ms]
      total_recv := st.total_recv + 1
      J_ms := J1
      last_transit_ms := some transit_ms }

/-- Validation, duplicate suppression and correlation for one parsed
datagram (source lines 145-160): drop it if the magic is wrong or the
sequence number was already received; otherwise mark it received and, if
it is still pending, resolve the sample. -/
def processParsed (st : ClientState) (r_seq s_ns magic recv_ns : ℕ) :
    ClientState :=
  if magic ≠ MAGIC then st
  else if r_seq ∈ st.received then st
  else
    match st.sent_times.lookup r_seq with
    | some send_ns => resolveSample st r_seq s_ns send_ns recv_ns
    | none => { st with received := insert r_seq st.received }

/-- Processing of one incoming datagram (source lines 140-160): parse
and validate the first PKT_SIZE bytes, dropping short datagrams.  The
function is total: no input raises. -/
def processDatagram (st : ClientState) (data : List ℕ) (recv_ns : ℕ) :
    ClientState :=
  if PKT_SIZE ≤ data.length then
    processParsed st (parsePkt data).1 (parsePkt data).2.1 (parsePkt data).2.2
      recv_ns
  else st

/-- Claim C7: if a well-formed datagram arrives whose sequence number is
already in the received set, the datagram is dropped and the whole
client state (in particular total_recv, the RTT and one-way sample
lists, and the jitter state) is unchanged, so no sequence number is ever
credited as received more than once. -/
theorem C7_duplicate_dropped (st : ClientState) (data : List ℕ) (t : ℕ)
    (hlen : PKT_SIZE ≤ data.length)
    (hmagic : (parsePkt data).2.2 = MAGIC)
    (hdup : (parsePkt data).1 ∈ st.received) :
    processDatagram st data t = st := by
  unfold processDatagram processParsed
  rw [if_pos hlen, if_neg (not_not_intro hmagic), if_pos hdup]

/-- Witness for C7: a state that has already received sequence number 5
gets a valid echo of sequence number 5 and ignores it. -/
theorem C7_duplicate_dropped_witness :
    PKT_SIZE ≤ ([0, 0, 0, 5, 0, 0, 0, 0, 0, 0, 3, 232, 171, 205, 19, 87] : List ℕ).length
    ∧ (parsePkt [0, 0, 0, 5, 0, 0, 0, 0, 0, 0, 3, 232, 171, 205, 19, 87]).2.2 = MAGIC
    ∧ (parsePkt [0, 0, 0, 5, 0, 0, 0, 0, 0, 0, 3, 232, 171, 205, 19, 87]).1 ∈
        ({5} : Finset ℕ)
    ∧ processDatagram
        { initState with received := {5}, sent_times := [(5, 1000)] }
        [0, 0, 0, 5, 0, 0, 0, 0, 0, 0, 3, 232, 171, 205, 19, 87] 2000 =
        { initState with received := {5}, sent_times := [(5, 1000)] } :=
  ⟨by decide, by decide, by decide,
    C7_duplicate_dropped
      { initState with received := {5}, sent_times := [(5, 1000)] }
      [0, 0, 0, 5, 0, 0, 0, 0, 0, 0, 3, 232, 171, 205, 19, 87] 2000
      (by decide) (by decide) (by decide)⟩

/-- Claim C8: an incoming datagram that is shorter than the fixed probe
record length, or whose magic field differs from the expected constant,
is rejected silently: the processing function is total (no exception)
and returns the state unchanged. -/
theorem C8_malformed_dropped (st : ClientState) (data : List ℕ) (t : ℕ)
    (h : data.length < PKT_SIZE ∨ (parsePkt data).2.2 ≠ MAGIC) :
    processDatagram st data t = st := by
  unfold processDatagram
  rcases h with hshort | hmagic
  · rw [if_neg (not_le.mpr hshort)]
  · rcases le_or_lt PKT_SIZE data.length with hlen | hlen
    · rw [if_pos hlen]
      unfold processParsed
      rw [if_pos hmagic]
    · rw [if_neg (not_le.mpr hlen)]

/-- Witness for C8: a three-byte datagram is dropped without touching
the state. -/
theorem C8_malformed_dropped_witness :
    (([1, 2, 3] : List ℕ).length < PKT_SIZE ∨ (parsePkt [1, 2, 3]).2.2 ≠ MAGIC)
    ∧ processDatagram initState [1, 2, 3] 0 = initState :=
  ⟨Or.inl (by decide),
    C8_malformed_dropped initState [1, 2, 3] 0 (Or.inl (by decide))⟩

/-- Claim C9: on every send attempt the sequence counter advances by
exactly 1 modulo 2^32; when the transport send fails nothing else of the
send bookkeeping (pending map, window, sent counter) is recorded, so the
state changes only in the advanced sequence counter; and from sequence
2^32 - 1 the counter wraps to 0. -/
theorem C9_seq_advance (cap : ℕ) (st : ClientState) (ns : ℕ) (ok : Bool) :
    (sendStep cap st ns ok).seq = (st.seq + 1) % 2 ^ 32
    ∧ sendStep cap st ns false = { st with seq := (st.seq + 1) % 2 ^ 32 }
    ∧ (sendStep cap { st with seq := 2 ^ 32 - 1 } ns ok).seq = 0 := by
  refine ⟨?_, rfl, ?_⟩ <;> cases ok <;> simp [sendStep]

/-- The key set of an association-list dictionary. -/
def keysOf (l : List (ℕ × ℕ)) : Finset ℕ := l.foldr (fun p s => insert p.1 s) ∅

lemma keysOf_filter_subset (l : List (ℕ × ℕ)) (p : ℕ × ℕ → Bool) :
    keysOf (l.filter p) ⊆ keysOf l := by
  induction l with
  | nil => exact Finset.Subset.refl _
  | cons a t ih =>
    by_cases hp : p a = true
    · rw [List.filter_cons_of_pos hp]
      exact Finset.insert_subset_insert _ ih
    · rw [List.filter_cons_of_neg (by simpa using hp)]
      exact ih.trans (Finset.subset_insert _ _)

lemma keysOf_dictInsert_subset (l : List (ℕ × ℕ)) (k v : ℕ) :
    keysOf (dictInsert l k v) ⊆ insert k (keysOf l) :=
  Finset.insert_subset_insert _ (keysOf_filter_subset l _)

lemma mem_keysOf_of_lookup {l : List (ℕ × ℕ)} {k v : ℕ}
    (h : l.lookup k = some v) : k ∈ keysOf l := by
  induction l with
  | nil => simp [List.lookup] at h
  | cons a t ih =>
    rw [List.lookup] at h
    cases hb : (k == a.1) with
    | true => exact Finset.mem_insert.mpr (Or.inl (eq_of_beq hb))
    | false =>
      rw [hb] at h
      exact Finset.mem_insert.mpr (Or.inr (ih h))

/-- The counting invariant of the client loop: the received counter plus
the number of pending sequence numbers not yet received never exceeds
the sent counter. -/
def GoodState (st : ClientState) : Prop :=
  st.total_recv + (keysOf st.sent_times \ st.received).card ≤ st.total_sent

/-- States reachable by the client measurement loop: the initial state,
then any interleaving of send attempts (source lines 127-138) and
datagram receptions (source lines 140-160). -/
inductive Reachable (cap : ℕ) : ClientState → Prop where
  | init : Reachable cap initState
  | send (st : ClientState) (ns : ℕ) (ok : Bool) :
      Reachable cap st → Reachable cap (sendStep cap st ns ok)
  | recv (st : ClientState) (data : List ℕ) (t : ℕ) :
      Reachable cap st → Reachable cap (processDatagram st data t)

lemma good_init : GoodState initState := by
  simp [GoodState, initState, keysOf]

lemma good_send (cap : ℕ) (st : ClientState) (ns : ℕ) (ok : Bool)
    (h : GoodState st) : GoodState (sendStep cap st ns ok) := by
  cases ok
  · simpa [GoodState, sendStep] using h
  · unfold GoodState sendStep
    simp only [if_pos]
    have hsub : keysOf (dictInsert st.sent_times st.seq ns) \ st.received ⊆
        insert st.seq (keysOf st.sent_times \ st.received) := by
      intro x hx
      rcases Finset.mem_sdiff.mp hx with ⟨hk, hr⟩
      rcases Finset.mem_insert.mp (keysOf_dictInsert_subset _ _ _ hk) with he | hm
      · exact Finset.mem_insert.mpr (Or.inl he)
      · exact Finset.mem_insert.mpr (Or.inr (Finset.mem_sdiff.mpr ⟨hm, hr⟩))
    have hcard := (Finset.card_le_card hsub).trans (Finset.card_insert_le _ _)
    unfold GoodState at h
    omega

lemma good_recv (st : ClientState) (data : List ℕ) (t : ℕ)
    (h : GoodState st) : GoodState (processDatagram st data t) := by
  unfold processDatagram
  split_ifs with hlen
  · unfold processParsed
    split_ifs with hm hd
    · exact h
    · exact h
    · cases hlk : st.sent_times.lookup (parsePkt data).1 with
      | none =>
        simp only [GoodState] at h ⊢
        have hsub : keysOf st.sent_times \ insert (parsePkt data).1 st.received ⊆
            keysOf st.sent_times \ st.received :=
          Finset.sdiff_subset_sdiff (Finset.Subset.refl _)
            (Finset.subset_insert _ _)
        have := Finset.card_le_card hsub
        omega
      | some send_ns =>
        simp only [GoodState, resolveSample] at h ⊢
        have hrk : (parsePkt data).1 ∈ keysOf st.sent_times :=
          mem_keysOf_of_lookup hlk
        have hmem : (parsePkt data).1 ∈ keysOf st.sent_times \ st.received :=
          Finset.mem_sdiff.mpr ⟨hrk, hd⟩
        rw [Finset.sdiff_insert, Finset.card_erase_of_mem hmem]
        have hpos : 0 < (keysOf st.sent_times \ st.received).card :=
          Finset.card_pos.mpr ⟨_, hmem⟩
        omega
  · exact h

/-- Cumulative loss percent of the periodic summary (source line 191):
100*(total_sent - total_recv)/total_sent, or 0.0 when nothing was sent
(Python truthiness of total_sent). -/
def lossTotal (st : ClientState) : ℚ :=
  if st.total_sent ≠ 0 then
    100 * ((st.total_sent : ℚ) - (st.total_recv : ℚ)) / (st.total_sent : ℚ)
  else 0

/-- Claim C10: in every reachable client state the received counter
never exceeds the sent counter, hence the cumulative loss percent of the
periodic summary lies in [0, 100]; and when the sliding window is empty
the window loss percent is reported as 0 rather than failing. -/
theorem C10_counters_invariant (cap : ℕ) (st : ClientState)
    (h : Reachable cap st) :
    st.total_recv ≤ st.total_sent
    ∧ 0 ≤ lossTotal st ∧ lossTotal st ≤ 100
    ∧ (st.window = [] → lossPctOf st.window st.received = 0) := by
  have hg : GoodState st := by
    induction h with
    | init => exact good_init
    | send st1 ns ok _ ih => exact good_send _ _ _ _ ih
    | recv st1 data t _ ih => exact good_recv _ _ _ ih
  have hle : st.total_recv ≤ st.total_sent := le_trans (Nat.le_add_right _ _) hg
  have hleq : (st.total_recv : ℚ) ≤ (st.total_sent : ℚ) := by exact_mod_cast hle
  refine ⟨hle, ?_, ?_, ?_⟩
  · unfold lossTotal
    split_ifs with hs
    · apply div_nonneg (by linarith) (Nat.cast_nonneg _)
    · exact le_refl 0
  · unfold lossTotal
    split_ifs with hs
    · have hpos : (0 : ℚ) < (st.total_sent : ℚ) := by
        exact_mod_cast Nat.pos_of_ne_zero hs
      rw [div_le_iff₀ hpos]
      have : (0 : ℚ) ≤ (st.total_recv : ℚ) := Nat.cast_nonneg _
      linarith
    · norm_num
  · intro hw
    rw [hw]
    rfl

/-- Witness for C10 at the state reached by one successful send from the
initial state. -/
theorem C10_counters_invariant_witness :
    (sendStep 100 initState 1000 true).total_recv ≤
        (sendStep 100 initState 1000 true).total_sent
    ∧ 0 ≤ lossTotal (sendStep 100 initState 1000 true)
    ∧ lossTotal (sendStep 100 initState 1000 true) ≤ 100
    ∧ ((sendStep 100 initState 1000 true).window = [] →
        lossPctOf (sendStep 100 initState 1000 true).window
          (sendStep 100 initState 1000 true).received = 0) :=
  C10_counters_invariant 100 (sendStep 100 initState 1000 true)
    (Reachable.send initState 1000 true Reachable.init)

/-- Python list slice l[-n:]: the last n elements (the whole list when
n = 0 or n exceeds the length). -/
def negSlice (l : List ℚ) (n : ℕ) : List ℚ :=
  if n = 0 then l else l.drop (l.length - n)

/-- Delay input to the estimator (source line 168): mean of the most
recent up-to-pps one-way samples. -/
def avgOneway (oneway_samples : List ℚ) (pps : ℕ) : ℚ :=
  (negSlice oneway_samples pps).sum /
    ((max 1 (min oneway_samples.length pps) : ℕ) : ℚ)

/-- Warm-up gating of the MOS family (source lines 166-171): the four
values are computed only when elapsed > warmup and more than two one-way
samples exist, and are otherwise all None (modelled as Option.none). -/
def mosFields (elapsed warmup : ℚ) (oneway_samples : List ℚ) (pps : ℕ)
    (loss_pct : ℚ) (codec : String) (burstR : ℚ) :
    Option (ℚ × ℚ × ℚ × ℚ) :=
  if warmup < elapsed ∧ 2 < oneway_samples.length then
    some (emodel_mos (avgOneway oneway_samples pps) loss_pct codec burstR)
  else none

/-- Round half to even, the tie-breaking rule of Python's round. -/
def roundHalfEven (x : ℚ) : ℤ :=
  if x - ⌊x⌋ < 1 / 2 then ⌊x⌋
  else if 1 / 2 < x - ⌊x⌋ then ⌊x⌋ + 1
  else if ⌊x⌋ % 2 = 0 then ⌊x⌋ else ⌊x⌋ + 1

/-- Python round(x, nd) on the embedded rationals. -/
def pyRound (x : ℚ) (nd : ℕ) : ℚ := (roundHalfEven (x * 10 ^ nd) : ℚ) / 10 ^ nd

/-- One MOS-family CSV cell (source lines 178-181).  The source writes
the conditional expression round(v, nd) if v else "", which tests the
value for Python TRUTHINESS: both None and the float 0.0 are falsy and
produce the empty-string cell, modelled here as none. -/
def csvCell (v : Option ℚ) (nd : ℕ) : Option ℚ :=
  match v with
  | none => none
  | some x => if x = 0 then none else some (pyRound x nd)

/-- The four MOS-family cells (mos, r_factor, Id, Ie_eff) of one CSV row
(source lines 173-182). -/
def mosRowCells (mf : Option (ℚ × ℚ × ℚ × ℚ)) :
    Option ℚ × Option ℚ × Option ℚ × Option ℚ :=
  match mf with
  | none => (none, none, none, none)
  | some (mos, R, Idv, Ie_eff) =>
      (csvCell (some mos) 3, csvCell (some R) 1, csvCell (some Idv) 3,
        csvCell (some Ie_eff) 3)

/-- Claim C5 fails on the code: with the warm-up gate satisfied
(elapsed 10 > warmup 3, three one-way samples) at zero delay and zero
loss with codec g711, the MOS family is computed as
(4.427798584, 94.2, 0, 0), yet the CSV cells for Id and Ie_eff are
empty, because the value 0.0 is falsy in the source's conditional
expression round(v, nd) if v else "".  The spec requires empty cells
exactly when the values are withheld by the warm-up gate. -/
theorem C5_truthiness_bug :
    mosFields 10 3 [0, 0, 0] 50 0 "g711" 1 =
      some (4427798584 / 1000000000, 94.2, 0, 0)
    ∧ mosRowCells (mosFields 10 3 [0, 0, 0] 50 0 "g711" 1) =
      (some (4428 / 1000), some 94.2, none, none) := by
  have ha : avgOneway [0, 0, 0] 50 = 0 := by
    norm_num [avgOneway, negSlice]
  have hm : mosFields 10 3 [0, 0, 0] 50 0 "g711" 1 =
      some (4427798584 / 1000000000, 94.2, 0, 0) := by
    unfold mosFields
    rw [if_pos (by norm_num), ha, emodel_g711_zero]
  refine ⟨hm, ?_⟩
  rw [hm]
  unfold mosRowCells csvCell
  norm_num [pyRound, roundHalfEven]

end VoipProbe
